import Mathlib

/-!
Verification development for the vision-tracking production-line monitor.

The embedding models the pipeline of the repository:
  * the OCR response normalizer of the Gemini counter route
    (JSON extraction from fenced / prose-wrapped model replies, field
    defaulting, and the parse-failure fallback record);
  * the server-side rate calculation (bottles-per-minute and the
    normal / slow / unknown classification);
  * the bare-number extraction of the Vision route (digit runs, the
    value-bucket selection) and of the simpler Gemini number route;
  * the client-side log accumulator (append of relevant / irrelevant
    readings, manual correction of an entry's box count).

JavaScript numbers are modelled as exact rationals (ℚ), `Date` values by
their millisecond timestamps, strings by `String` / `List Char` (ASCII
semantics for case and whitespace operations), and JSON values by an
inductive `Json` type.  `null`/`undefined`-valued expressions are
modelled with `Option`; fallible operations return `Option`/`Except`-like
results rather than throwing.
-/

/-- Status classification of a reading: `normal` / `slow` / `unknown`
(rendered as 정상 / 느림 / 알수없음 in the client UI). -/
inductive RStatus where
  | normal
  | slow
  | unknown
deriving DecidableEq

/-- JSON values as produced by `JSON.parse`.  Numbers are modelled as
exact rationals; object fields keep their textual order (duplicate keys
are resolved last-wins on access, as in JavaScript). -/
inductive Json where
  | null
  | bool (b : Bool)
  | num (q : ℚ)
  | str (s : List Char)
  | arr (elems : List Json)
  | obj (fields : List (List Char × Json))

mutual

/-- Decidable equality on JSON values (hand-rolled because of the nested
lists in `arr` and `obj`). -/
def decEqJson : (a b : Json) → Decidable (a = b)
  | .null, .null => isTrue rfl
  | .null, .bool _ => isFalse (by intro h; injection h)
  | .null, .num _ => isFalse (by intro h; injection h)
  | .null, .str _ => isFalse (by intro h; injection h)
  | .null, .arr _ => isFalse (by intro h; injection h)
  | .null, .obj _ => isFalse (by intro h; injection h)
  | .bool _, .null => isFalse (by intro h; injection h)
  | .bool a, .bool b =>
    if h : a = b then isTrue (by rw [h])
    else isFalse (by intro hh; injection hh; contradiction)
  | .bool _, .num _ => isFalse (by intro h; injection h)
  | .bool _, .str _ => isFalse (by intro h; injection h)
  | .bool _, .arr _ => isFalse (by intro h; injection h)
  | .bool _, .obj _ => isFalse (by intro h; injection h)
  | .num _, .null => isFalse (by intro h; injection h)
  | .num _, .bool _ => isFalse (by intro h; injection h)
  | .num a, .num b =>
    if h : a = b then isTrue (by rw [h])
    else isFalse (by intro hh; injection hh; contradiction)
  | .num _, .str _ => isFalse (by intro h; injection h)
  | .num _, .arr _ => isFalse (by intro h; injection h)
  | .num _, .obj _ => isFalse (by intro h; injection h)
  | .str _, .null => isFalse (by intro h; injection h)
  | .str _, .bool _ => isFalse (by intro h; injection h)
  | .str _, .num _ => isFalse (by intro h; injection h)
  | .str a, .str b =>
    if h : a = b then isTrue (by rw [h])
    else isFalse (by intro hh; injection hh; contradiction)
  | .str _, .arr _ => isFalse (by intro h; injection h)
  | .str _, .obj _ => isFalse (by intro h; injection h)
  | .arr _, .null => isFalse (by intro h; injection h)
  | .arr _, .bool _ => isFalse (by intro h; injection h)
  | .arr _, .num _ => isFalse (by intro h; injection h)
  | .arr _, .str _ => isFalse (by intro h; injection h)
  | .arr a, .arr b =>
    match decEqJsonList a b with
    | isTrue h => isTrue (by rw [h])
    | isFalse h => isFalse (by intro hh; injection hh; contradiction)
  | .arr _, .obj _ => isFalse (by intro h; injection h)
  | .obj _, .null => isFalse (by intro h; injection h)
  | .obj _, .bool _ => isFalse (by intro h; injection h)
  | .obj _, .num _ => isFalse (by intro h; injection h)
  | .obj _, .str _ => isFalse (by intro h; injection h)
  | .obj _, .arr _ => isFalse (by intro h; injection h)
  | .obj a, .obj b =>
    match decEqJsonFields a b with
    | isTrue h => isTrue (by rw [h])
    | isFalse h => isFalse (by intro hh; injection hh; contradiction)

/-- Decidable equality on lists of JSON values. -/
def decEqJsonList : (a b : List Json) → Decidable (a = b)
  | [], [] => isTrue rfl
  | [], _ :: _ => isFalse (by intro h; injection h)
  | _ :: _, [] => isFalse (by intro h; injection h)
  | a :: as, b :: bs =>
    match decEqJson a b with
    | isFalse _ => isFalse (by intro h; injection h; contradiction)
    | isTrue h1 =>
      match decEqJsonList as bs with
      | isTrue h2 => isTrue (by rw [h1, h2])
      | isFalse _ => isFalse (by intro h; injection h; contradiction)

/-- Decidable equality on JSON object field lists. -/
def decEqJsonFields : (a b : List (List Char × Json)) → Decidable (a = b)
  | [], [] => isTrue rfl
  | [], _ :: _ => isFalse (by intro h; injection h)
  | _ :: _, [] => isFalse (by intro h; injection h)
  | (k1, v1) :: as, (k2, v2) :: bs =>
    if hk : k1 = k2 then
      match decEqJson v1 v2 with
      | isFalse hv => isFalse (by
          intro h; injection h with h1 _
          exact hv (congrArg Prod.snd h1))
      | isTrue hv =>
        match decEqJsonFields as bs with
        | isTrue h2 => isTrue (by rw [hk, hv, h2])
        | isFalse _ => isFalse (by intro h; injection h; contradiction)
    else isFalse (by
      intro h; injection h with h1 _
      exact hk (congrArg Prod.fst h1))

end

instance : DecidableEq Json := decEqJson

/-- JSON whitespace characters (the four accepted by `JSON.parse`). -/
def jsonWs (c : Char) : Bool :=
  c = ' ' || c = '\t' || c = '\n' || c = '\r'

/-- Skip leading JSON whitespace. -/
def skipWs (s : List Char) : List Char :=
  s.dropWhile jsonWs

/-- Value of a hexadecimal digit, if the character is one. -/
def hexVal (c : Char) : Option ℕ :=
  if '0' ≤ c ∧ c ≤ '9' then some (c.toNat - 48)
  else if 'a' ≤ c ∧ c ≤ 'f' then some (c.toNat - 87)
  else if 'A' ≤ c ∧ c ≤ 'F' then some (c.toNat - 55)
  else none

/-- Body of a JSON string literal after the opening quote: returns the
decoded characters and the remaining input after the closing quote.
Escape sequences follow `JSON.parse`; raw control characters are
rejected.  Fuelled recursion (the fuel bounds the input length). -/
def strBody : ℕ → List Char → Option (List Char × List Char)
  | 0, _ => none
  | _, [] => none
  | fuel + 1, c :: rest =>
    if c = '"' then some ([], rest)
    else if c = '\\' then
      match rest with
      | [] => none
      | e :: r =>
        if e = '"' then (strBody fuel r).map (fun p => ('"' :: p.1, p.2))
        else if e = '\\' then (strBody fuel r).map (fun p => ('\\' :: p.1, p.2))
        else if e = '/' then (strBody fuel r).map (fun p => ('/' :: p.1, p.2))
        else if e = 'b' then (strBody fuel r).map (fun p => ('\x08' :: p.1, p.2))
        else if e = 'f' then (strBody fuel r).map (fun p => ('\x0c' :: p.1, p.2))
        else if e = 'n' then (strBody fuel r).map (fun p => ('\n' :: p.1, p.2))
        else if e = 'r' then (strBody fuel r).map (fun p => ('\r' :: p.1, p.2))
        else if e = 't' then (strBody fuel r).map (fun p => ('\t' :: p.1, p.2))
        else if e = 'u' then
          match r with
          | h1 :: h2 :: h3 :: h4 :: rr =>
            match hexVal h1, hexVal h2, hexVal h3, hexVal h4 with
            | some a, some b, some c2, some d =>
              (strBody fuel rr).map (fun p => (Char.ofNat (((a * 16 + b) * 16 + c2) * 16 + d) :: p.1, p.2))
            | _, _, _, _ => none
          | _ => none
        else none
    else if c.toNat < 32 then none
    else (strBody fuel rest).map (fun p => (c :: p.1, p.2))

/-- Numeric value of a list of decimal digit characters. -/
def digitsVal (ds : List Char) : ℕ :=
  ds.foldl (fun n c => 10 * n + (c.toNat - 48)) 0

/-- Parse a JSON number (sign, integer part with the no-leading-zero
rule, optional fraction, optional exponent) into an exact rational. -/
def parseNum (s : List Char) : Option (ℚ × List Char) :=
  let (neg, s1) : Bool × List Char :=
    match s with
    | '-' :: r => (true, r)
    | _ => (false, s)
  let ip := s1.takeWhile Char.isDigit
  let r1 := s1.dropWhile Char.isDigit
  if ip = [] then none
  else if 1 < ip.length ∧ ip.head? = some '0' then none
  else
    let fracStep : Option (List Char × List Char) :=
      match r1 with
      | '.' :: rr =>
        let f := rr.takeWhile Char.isDigit
        if f = [] then none else some (f, rr.dropWhile Char.isDigit)
      | _ => some ([], r1)
    match fracStep with
    | none => none
    | some (frac, r2) =>
      let expStep : Option (Bool × List Char × List Char) :=
        match r2 with
        | 'e' :: rr =>
          match rr with
          | '-' :: rrr =>
            let e := rrr.takeWhile Char.isDigit
            if e = [] then none else some (true, e, rrr.dropWhile Char.isDigit)
          | '+' :: rrr =>
            let e := rrr.takeWhile Char.isDigit
            if e = [] then none else some (false, e, rrr.dropWhile Char.isDigit)
          | _ =>
            let e := rr.takeWhile Char.isDigit
            if e = [] then none else some (false, e, rr.dropWhile Char.isDigit)
        | 'E' :: rr =>
          match rr with
          | '-' :: rrr =>
            let e := rrr.takeWhile Char.isDigit
            if e = [] then none else some (true, e, rrr.dropWhile Char.isDigit)
          | '+' :: rrr =>
            let e := rrr.takeWhile Char.isDigit
            if e = [] then none else some (false, e, rrr.dropWhile Char.isDigit)
          | _ =>
            let e := rr.takeWhile Char.isDigit
            if e = [] then none else some (false, e, rr.dropWhile Char.isDigit)
        | _ => some (false, [], r2)
      match expStep with
      | none => none
      | some (eneg, eds, rest) =>
        let base : ℚ := (digitsVal ip : ℚ) + (digitsVal frac : ℚ) / ((10 : ℚ) ^ frac.length)
        let scaled : ℚ := if eneg then base / ((10 : ℚ) ^ digitsVal eds) else base * ((10 : ℚ) ^ digitsVal eds)
        some ((if neg then -scaled else scaled), rest)

mutual

/-- Parse one JSON value (after skipping leading whitespace), returning
the value and the remaining input.  Fuelled mutual recursion. -/
def parseVal : ℕ → List Char → Option (Json × List Char)
  | 0, _ => none
  | fuel + 1, s =>
    match skipWs s with
    | 'n' :: 'u' :: 'l' :: 'l' :: r => some (.null, r)
    | 't' :: 'r' :: 'u' :: 'e' :: r => some (.bool true, r)
    | 'f' :: 'a' :: 'l' :: 's' :: 'e' :: r => some (.bool false, r)
    | '"' :: r => (strBody (r.length + 1) r).map (fun p => (.str p.1, p.2))
    | '[' :: r =>
      match skipWs r with
      | ']' :: rr => some (.arr [], rr)
      | _ => (parseElems fuel r).map (fun p => (.arr p.1, p.2))
    | '{' :: r =>
      match skipWs r with
      | '}' :: rr => some (.obj [], rr)
      | _ => (parseMembers fuel r).map (fun p => (.obj p.1, p.2))
    | rest => (parseNum rest).map (fun p => (.num p.1, p.2))

/-- Parse the comma-separated elements of a nonempty JSON array up to
and including the closing bracket. -/
def parseElems : ℕ → List Char → Option (List Json × List Char)
  | 0, _ => none
  | fuel + 1, s =>
    match parseVal fuel s with
    | none => none
    | some (v, r) =>
      match skipWs r with
      | ',' :: rr => (parseElems fuel rr).map (fun p => (v :: p.1, p.2))
      | ']' :: rr => some ([v], rr)
      | _ => none

/-- Parse the comma-separated members of a nonempty JSON object up to
and including the closing brace. -/
def parseMembers : ℕ → List Char → Option (List (List Char × Json) × List Char)
  | 0, _ => none
  | fuel + 1, s =>
    match skipWs s with
    | '"' :: r =>
      match strBody (r.length + 1) r with
      | none => none
      | some (k, r2) =>
        match skipWs r2 with
        | ':' :: r3 =>
          match parseVal fuel r3 with
          | none => none
          | some (v, r4) =>
            match skipWs r4 with
            | ',' :: rr => (parseMembers fuel rr).map (fun p => ((k, v) :: p.1, p.2))
            | '}' :: rr => some ([(k, v)], rr)
            | _ => none
        | _ => none
    | _ => none

end

/-- The embedding of `JSON.parse`: the whole input must be one JSON
value surrounded only by whitespace; otherwise the parse fails. -/
def parseJson (t : List Char) : Option Json :=
  match parseVal (2 * t.length + 2) t with
  | some (v, rest) => if skipWs rest = [] then some v else none
  | none => none

example : parseJson ("null".data) = some Json.null := by decide
example : parseJson ("I see a desk".data) = none := by decide
example : parseJson (" \x7b \x7d ".data) = some (Json.obj []) := by decide
example : parseJson ("\x7b\"a\":true\x7d".data) =
    some (Json.obj [(['a'], Json.bool true)]) := by decide
example : parseJson ("\x7b\"a\":1\x7d x".data) = none := by decide

/-- Whitespace class of the JavaScript regex `\s` (ASCII part). -/
def jsWs (c : Char) : Bool :=
  c = ' ' || c = '\t' || c = '\n' || c = '\r' || c = '\x0b' || c = '\x0c'

/-- Drop `\s` characters from both ends of a character list. -/
def trimWs (t : List Char) : List Char :=
  ((t.dropWhile jsWs).reverse.dropWhile jsWs).reverse

/-- Index of the first occurrence of `pat` in `t`, if any. -/
def findSub (pat : List Char) : List Char → Option ℕ
  | [] => if pat = [] then some 0 else none
  | c :: cs =>
    if pat.isPrefixOf (c :: cs) then some 0
    else (findSub pat cs).map (· + 1)

/-- The literal `«```json»` opening of a fenced code block. -/
def fencePat : List Char := ('`' :: '`' :: '`' :: 'j' :: 's' :: 'o' :: 'n' :: [])

/-- The literal `«```»` closing of a fenced code block. -/
def fenceClose : List Char := ('`' :: '`' :: '`' :: [])

/-- Index of the last occurrence of character `c` in `t`, if any. -/
def lastIdxOf (c : Char) (t : List Char) : Option ℕ :=
  (t.reverse.findIdx? (· = c)).map (fun i => t.length - 1 - i)

/-- The brace fallback of the JSON extraction: the JavaScript regex
`/\{[\s\S]*\}/` matches greedily from the first `«{»` to the last `«}»`
of the text (when the last `«}»` comes after the first `«{»`); with no
match the raw text is kept. -/
def braceSlice (t : List Char) : List Char :=
  match t.findIdx? (· = '{'), lastIdxOf '}' t with
  | some i, some j => if i < j then (t.drop i).take (j - i + 1) else t
  | _, _ => t

/-- JSON-block extraction of the OCR routes: first try the fenced-block
regex `«/```json\s*([\s\S]*?)\s*```/»` (content between the first
`«```json»` and the following `«```»`, whitespace-trimmed), else fall
back to the greedy brace regex, else keep the whole reply text. -/
def extractJsonStr (t : List Char) : List Char :=
  match findSub fencePat t with
  | some p =>
    match findSub fenceClose (t.drop (p + 7)) with
    | some q => trimWs ((t.drop (p + 7)).take q)
    | none => braceSlice t
  | none => braceSlice t

/-- Property access `parsedData.key` on a parsed JSON value: `none`
models JavaScript `undefined` (absent field or non-object receiver);
duplicate keys resolve last-wins as `JSON.parse` does. -/
def jget (j : Json) (key : List Char) : Option Json :=
  match j with
  | .obj fields => fields.foldl (fun acc kv => if kv.1 = key then some kv.2 else acc) none
  | _ => none

/-- JavaScript truthiness of a possibly-`undefined` JSON value. -/
def jsTruthy (v : Option Json) : Bool :=
  match v with
  | none => false
  | some .null => false
  | some (.bool b) => b
  | some (.num q) => decide (q ≠ 0)
  | some (.str s) => decide (s ≠ [])
  | some (.arr _) => true
  | some (.obj _) => true

/-- JavaScript nullish coalescing `v ?? d` on a field-access result:
both `undefined` (absent) and `null` fall through to the default. -/
def jsCoalesce (v : Option Json) (d : Json) : Json :=
  match v with
  | none => d
  | some .null => d
  | some x => x

/-- Truthiness of an optional number (`undefined` and `0` are falsy). -/
def jsTruthyNum (v : Option ℚ) : Bool :=
  match v with
  | none => false
  | some q => decide (q ≠ 0)

/-- Rate calculation of the Gemini counter route (`POST`, BPM block):
`timeDiffMinutes = (currentTime - previousTimestamp) / 1000 / 60`; when
`0 < timeDiffMinutes < 60` and `currentValue - previousValue ≥ 0` the
rate is `Math.round(diff / timeDiffMinutes)` and the status compares the
rate against the fixed threshold 50; otherwise the rate stays `null` and
the status stays `unknown`. -/
def calcBpm (currentValue currentTime previousValue previousTimestamp : ℚ) :
    Option ℤ × RStatus :=
  let timeDiffMinutes := (currentTime - previousTimestamp) / 1000 / 60
  if 0 < timeDiffMinutes ∧ timeDiffMinutes < 60 then
    let bottleDiff := currentValue - previousValue
    if 0 ≤ bottleDiff then
      let bpm := round (bottleDiff / timeDiffMinutes)
      (some bpm, if 50 ≤ bpm then .normal else .slow)
    else (none, .unknown)
  else (none, .unknown)

/-- Normalized response record of the Gemini counter route (the
`ProductionData` interface): schema fields keep the raw JSON value that
JavaScript would store, `bpm` is the computed rate. -/
structure ProductionData where
  isRelevant : Json
  boxCount : Json
  bottleCount : Json
  bpm : Option ℤ
  status : RStatus
  summary : Json
  rawText : List Char
deriving DecidableEq

/-- Outcome of a normalizer run: a JSON response, or the route-level
`SERVER_ERROR` path taken when the post-parse code itself throws (the
only such reading is property access on a parsed JSON `null`). -/
inductive ApiOutcome (α : Type) where
  | ok (d : α)
  | serverError
deriving DecidableEq

/-- Key `isRelevant`. -/
def keyIsRelevant : List Char := "isRelevant".data

/-- Key `boxCount`. -/
def keyBoxCount : List Char := "boxCount".data

/-- Key `bottleCount`. -/
def keyBottleCount : List Char := "bottleCount".data

/-- Key `summary`. -/
def keySummary : List Char := "summary".data

/-- Fixed message prepended to the raw reply in the parse-failure
fallback record (이미지 분석 결과를 파싱할 수 없습니다: ). -/
def parseFailMsg : List Char := "이미지 분석 결과를 파싱할 수 없습니다: ".data

/-- Response normalizer of the Gemini counter route: extract a JSON
block from the model reply and parse it; on failure return the degraded
record (`isRelevant=false`, null fields, prefixed summary).  On success
run the BPM block against the previous reading data sent by the client
(`previousBottleCount !== undefined && previousTimestamp` truthy) and
build the response with nullish-coalesced field defaults.  A parsed
JSON `null` makes the field accesses throw, which the route surfaces as
`SERVER_ERROR`. -/
def normalizeCounter (textContent : List Char) (previousBottleCount : Option ℚ)
    (previousTimestamp : Option ℚ) (now : ℚ) : ApiOutcome ProductionData :=
  match parseJson (extractJsonStr textContent) with
  | none =>
    .ok { isRelevant := .bool false, boxCount := .null, bottleCount := .null,
          bpm := none, status := .unknown,
          summary := .str (parseFailMsg ++ textContent), rawText := textContent }
  | some parsed =>
    if parsed = .null then .serverError
    else
      let bs : Option ℤ × RStatus :=
        if jsTruthy (jget parsed keyIsRelevant)
            && (jget parsed keyBottleCount != some .null)
            && previousBottleCount.isSome && jsTruthyNum previousTimestamp then
          match jget parsed keyBottleCount with
          | some (.num bc) =>
            calcBpm bc now (previousBottleCount.getD 0) (previousTimestamp.getD 0)
          | _ => (none, .unknown)
        else (none, .unknown)
      .ok { isRelevant := jsCoalesce (jget parsed keyIsRelevant) (.bool false),
            boxCount := jsCoalesce (jget parsed keyBoxCount) .null,
            bottleCount := jsCoalesce (jget parsed keyBottleCount) .null,
            bpm := bs.1, status := bs.2,
            summary := jsCoalesce (jget parsed keySummary) (.str []),
            rawText := textContent }

/-- Normalized response record of the production-board route (the
six-field `ProductionData` interface of the metadata variant). -/
structure ProductionMeta where
  isRelevant : Json
  operatingLine : Json
  productionDate : Json
  plannedQuantity : Json
  productName : Json
  completedQuantity : Json
  lotNo : Json
  summary : Json
  rawText : List Char
deriving DecidableEq

/-- Key `operatingLine`. -/
def keyOperatingLine : List Char := "operatingLine".data

/-- Key `productionDate`. -/
def keyProductionDate : List Char := "productionDate".data

/-- Key `plannedQuantity`. -/
def keyPlannedQuantity : List Char := "plannedQuantity".data

/-- Key `productName`. -/
def keyProductName : List Char := "productName".data

/-- Key `completedQuantity`. -/
def keyCompletedQuantity : List Char := "completedQuantity".data

/-- Key `lotNo`. -/
def keyLotNo : List Char := "lotNo".data

/-- Response normalizer of the production-board route: same JSON
extraction and failure fallback, then pure nullish-coalesced defaulting
of the six schema fields (no rate computation in this variant). -/
def normalizeMeta (textContent : List Char) : ApiOutcome ProductionMeta :=
  match parseJson (extractJsonStr textContent) with
  | none =>
    .ok { isRelevant := .bool false, operatingLine := .null,
          productionDate := .null, plannedQuantity := .null,
          productName := .null, completedQuantity := .null, lotNo := .null,
          summary := .str (parseFailMsg ++ textContent), rawText := textContent }
  | some parsed =>
    if parsed = .null then .serverError
    else
      .ok { isRelevant := jsCoalesce (jget parsed keyIsRelevant) (.bool false),
            operatingLine := jsCoalesce (jget parsed keyOperatingLine) .null,
            productionDate := jsCoalesce (jget parsed keyProductionDate) .null,
            plannedQuantity := jsCoalesce (jget parsed keyPlannedQuantity) .null,
            productName := jsCoalesce (jget parsed keyProductName) .null,
            completedQuantity := jsCoalesce (jget parsed keyCompletedQuantity) .null,
            lotNo := jsCoalesce (jget parsed keyLotNo) .null,
            summary := jsCoalesce (jget parsed keySummary) (.str []),
            rawText := textContent }

example : extractJsonStr ("pre ```json\n \x7b\"a\":true\x7d \n``` post".data) =
    ("\x7b\"a\":true\x7d".data) := by decide
example : extractJsonStr ("x\x7b\"a\":true\x7dy".data) = ("\x7b\"a\":true\x7d".data) := by
  decide
example : extractJsonStr ("no braces here".data) = ("no braces here".data) := by decide

/-- The cleaning step `text.replace(/[,\s]/g, "")`: remove commas and
whitespace (so thousands separators vanish and digit runs may merge
across spaces). -/
def cleanText (t : List Char) : List Char :=
  t.filter (fun c => !(c = ',' || jsWs c))

/-- Accumulating helper for maximal digit runs (`acc` holds the current
run in reverse). -/
def digitRunsAux : List Char → List Char → List (List Char)
  | acc, [] => if acc = [] then [] else [acc.reverse]
  | acc, c :: cs =>
    if c.isDigit then digitRunsAux (c :: acc) cs
    else if acc = [] then digitRunsAux [] cs
    else acc.reverse :: digitRunsAux [] cs

/-- All maximal digit runs of a text, in order: the matches of the
regex `/\d+/g`. -/
def digitRuns (t : List Char) : List (List Char) :=
  digitRunsAux [] t

/-- Value of `Number.parseInt` on a digit run, as an integer. -/
def runVal (r : List Char) : ℤ :=
  (digitsVal r : ℤ)

/-- Spread maximum `Math.max(...l)` on a nonempty list (0 as junk value on `[]`, a case
both routes guard against). -/
def jsMaxList : List ℤ → ℤ
  | [] => 0
  | h :: t => t.foldl max h

/-- All positive extracted numbers of the Vision route: every text is
cleaned, its digit runs are parsed, and values `> 0` are kept (the
`!isNaN(parsed) && parsed > 0` filter). -/
def collectNumbers (texts : List (List Char)) : List ℤ :=
  texts.flatMap (fun t => ((digitRuns (cleanText t)).map runVal).filter (fun n => decide (0 < n)))

/-- The `fourDigitNumbers` bucket: values between 1000 and 9999. -/
def fourDigitNumbers (nums : List ℤ) : List ℤ :=
  nums.filter (fun n => decide (1000 ≤ n ∧ n ≤ 9999))

/-- The `threeDigitNumbers` bucket: values between 100 and 999. -/
def threeDigitNumbers (nums : List ℤ) : List ℤ :=
  nums.filter (fun n => decide (100 ≤ n ∧ n ≤ 999))

/-- The `twoDigitNumbers` bucket: values between 10 and 99. -/
def twoDigitNumbers (nums : List ℤ) : List ℤ :=
  nums.filter (fun n => decide (10 ≤ n ∧ n ≤ 99))

/-- Selection of `selectedNumber` in the Vision route: maximum of the
four-digit-value bucket if nonempty, else of the three-digit bucket,
else of the two-digit bucket, else the global maximum. -/
def selectNumber (nums : List ℤ) : ℤ :=
  if fourDigitNumbers nums ≠ [] then jsMaxList (fourDigitNumbers nums)
  else if threeDigitNumbers nums ≠ [] then jsMaxList (threeDigitNumbers nums)
  else if twoDigitNumbers nums ≠ [] then jsMaxList (twoDigitNumbers nums)
  else jsMaxList nums

/-- Bare-number extraction of the Vision route (`POST` after OCR):
`none` models the `NO_NUMBERS` soft error. -/
def extractNumber (texts : List (List Char)) : Option ℤ :=
  let allNumbers := collectNumbers texts
  if allNumbers = [] then none else some (selectNumber allNumbers)

/-- ASCII upper-casing of one character (`String.toUpperCase` on the
ASCII range, which is all the branch below compares against). -/
def jsToUpper (c : Char) : Char :=
  if 'a' ≤ c ∧ c ≤ 'z' then Char.ofNat (c.toNat - 32) else c

/-- The literal `NO_NUMBER` sentinel reply. -/
def noNumberLit : List Char := "NO_NUMBER".data

/-- The Gemini number route's check
`textContent.trim().toUpperCase() === "NO_NUMBER"`. -/
def isNoNumberReply (t : List Char) : Bool :=
  (trimWs t).map jsToUpper = noNumberLit

/-- Positive extracted numbers of the Gemini number route (single text,
same cleaning, digit runs, and `> 0` filter). -/
def collectNumbersRoute (t : List Char) : List ℤ :=
  ((digitRuns (cleanText t)).map runVal).filter (fun n => decide (0 < n))

/-- Bare-number extraction of the Gemini number route: the `NO_NUMBER`
sentinel and the empty cases yield the `NO_NUMBERS` soft error (`none`),
otherwise the global maximum is selected. -/
def extractNumberRoute (t : List Char) : Option ℤ :=
  if isNoNumberReply t then none
  else
    let allNumbers := collectNumbersRoute t
    if allNumbers = [] then none else some (jsMaxList allNumbers)

example : extractNumber [("The count is 1,234 units on line 2".data)] = some 1234 := by
  decide
example : extractNumber [("0".data)] = none := by decide
example : extractNumberRoute ("counter shows 4,523 and 45".data) = some 4523 := by decide
example : extractNumberRoute (" no_number ".data) = none := by decide

/-- A log entry of the counter client (`LogEntry` in the box/bottle
page): timestamps are millisecond values of the stored `Date`. -/
structure LogEntry where
  id : String
  timestamp : ℚ
  boxes : ℚ
  bottles : ℚ
  bpm : ℚ
  status : RStatus
  imageUrl : Option String
  summary : Option String
  isRelevant : Bool
deriving DecidableEq

/-- Numeric `x || d` of the client (`undefined`/`null` and `0` are
falsy and fall through to the default). -/
def jsOrQ (x : Option ℚ) (d : ℚ) : ℚ :=
  match x with
  | none => d
  | some v => if v = 0 then d else v

/-- The BPM recomputation inside `handleSaveEdit`: against the last
entry of the given predecessor pool, when the time delta is positive;
otherwise the stale `log.bpm` is kept. -/
def editRecompute (pool : List LogEntry) (log : LogEntry) (newBottles : ℚ) : ℚ :=
  match pool.getLast? with
  | none => log.bpm
  | some previousLog =>
    let timeDiffMinutes := (log.timestamp - previousLog.timestamp) / 60000
    let bottlesDiff := newBottles - previousLog.bottles
    if 0 < timeDiffMinutes then ((round (bottlesDiff / timeDiffMinutes) : ℤ) : ℚ)
    else log.bpm

/-- The per-entry update of `handleSaveEdit`: new box count, bottles =
boxes * 100, recomputed BPM clamped at 0, status from the unclamped
BPM against the threshold 50. -/
def applyEdit (pool : List LogEntry) (log : LogEntry) (newBoxes : ℚ) : LogEntry :=
  let newBottles := newBoxes * 100
  let newBpm := editRecompute pool log newBottles
  { log with
    boxes := newBoxes,
    bottles := newBottles,
    bpm := max 0 newBpm,
    status := if 50 ≤ newBpm then .normal else .slow }

/-- Correction handler `handleSaveEdit` of the counter client: `editValue` is the
`Number.parseInt` result (`none` = NaN); negative values are rejected
with no state change.  The edited entry's predecessor pool is
`prev.filter(l => l.isRelevant && l.timestamp < log.timestamp)` — the
relevant entries with strictly earlier timestamp, over the whole log. -/
def handleSaveEdit (logs : List LogEntry) (editingId : String) (editValue : Option ℚ) :
    List LogEntry :=
  match editValue with
  | none => logs
  | some newBoxes =>
    if newBoxes < 0 then logs
    else
      logs.map (fun log =>
        if log.id = editingId then
          applyEdit (logs.filter (fun l => l.isRelevant && decide (l.timestamp < log.timestamp)))
            log newBoxes
        else log)

/-- Modelled from the spec: the correction as the specification words
it, recomputing against the nearest preceding relevant entry selected
by log position (sequence order), not by timestamp.  Recursive helper
carrying the positional prefix. -/
def saveEditPosGo (editingId : String) (newBoxes : ℚ) :
    List LogEntry → List LogEntry → List LogEntry
  | _, [] => []
  | before, log :: rest =>
    (if log.id = editingId then applyEdit (before.filter (fun l => l.isRelevant)) log newBoxes
     else log) :: saveEditPosGo editingId newBoxes (before ++ [log]) rest

/-- Modelled from the spec: position-based variant of `handleSaveEdit`
(identical guards, but the predecessor pool is the relevant entries
among the sequence predecessors of the edited entry). -/
def handleSaveEditPos (logs : List LogEntry) (editingId : String) (editValue : Option ℚ) :
    List LogEntry :=
  match editValue with
  | none => logs
  | some newBoxes =>
    if newBoxes < 0 then logs
    else saveEditPosGo editingId newBoxes [] logs

/-- Wire response consumed by the counter client (`OCRResponse`):
`status` is optional to model the defensive `result.status || ...`. -/
structure OCRResponse where
  isRelevant : Bool
  boxCount : Option ℚ
  bottleCount : Option ℚ
  bpm : Option ℚ
  status : Option RStatus
  summary : String
deriving DecidableEq

/-- Relevant branch of `handleConfirmPhotoTime`: boxes and bottles with
`||` defaulting (bottles fall back to `boxes * 100`), BPM from the API
or locally recomputed against the last relevant entry when the API sent
none (guard `timeDiffMinutes > 0 && bottlesDiff > 0`, no upper time
bound here), status from the API status, and the entry appended at the
end with `isRelevant = true`. -/
def appendRelevant (logs : List LogEntry) (result : OCRResponse) (timestamp : ℚ)
    (newId : String) (imageUrl : Option String) : List LogEntry :=
  let relevantLogs := logs.filter (fun l => l.isRelevant)
  let boxes := jsOrQ result.boxCount 0
  let bottles := jsOrQ result.bottleCount (boxes * 100)
  let bpm0 := jsOrQ result.bpm 0
  let bpm :=
    if bpm0 = 0 ∧ relevantLogs ≠ [] then
      match relevantLogs.getLast? with
      | some previousLog =>
        let timeDiffMinutes := (timestamp - previousLog.timestamp) / 60000
        let bottlesDiff := bottles - previousLog.bottles
        if 0 < timeDiffMinutes ∧ 0 < bottlesDiff then
          ((round (bottlesDiff / timeDiffMinutes) : ℤ) : ℚ)
        else bpm0
      | none => bpm0
    else bpm0
  let status :=
    match result.status with
    | some s => s
    | none => if 50 ≤ bpm then RStatus.normal else RStatus.slow
  logs ++ [{ id := newId, timestamp := timestamp, boxes := boxes, bottles := bottles,
             bpm := max 0 bpm, status := status, imageUrl := imageUrl,
             summary := some result.summary, isRelevant := true }]

/-- The entry recorded for an irrelevant image: zero counts, zero BPM,
status unknown, `isRelevant = false`. -/
def irrelevantEntry (summary : String) (timestamp : ℚ) (newId : String)
    (imageUrl : Option String) : LogEntry :=
  { id := newId, timestamp := timestamp, boxes := 0, bottles := 0, bpm := 0,
    status := .unknown, imageUrl := imageUrl, summary := some summary,
    isRelevant := false }

/-- Irrelevant branch of `handleConfirmPhotoTime`: the irrelevant entry
is appended at the end. -/
def appendIrrelevant (logs : List LogEntry) (summary : String) (timestamp : ℚ)
    (newId : String) (imageUrl : Option String) : List LogEntry :=
  logs ++ [irrelevantEntry summary timestamp newId imageUrl]

/-- A log entry of the production-board client (six metadata fields,
no derived rate). -/
structure MetaLogEntry where
  id : String
  timestamp : ℚ
  operatingLine : Option String
  productionDate : Option String
  plannedQuantity : Option ℚ
  productName : Option String
  completedQuantity : Option ℚ
  lotNo : Option String
  imageUrl : Option String
  summary : Option String
  isRelevant : Bool
deriving DecidableEq

/-- Correction handler `handleSaveEdit` of the production-board client: same validation,
but the correction only replaces `completedQuantity` (no derived field
exists to recompute). -/
def handleSaveEditMeta (logs : List MetaLogEntry) (editingId : String)
    (editValue : Option ℚ) : List MetaLogEntry :=
  match editValue with
  | none => logs
  | some v =>
    if v < 0 then logs
    else logs.map (fun log =>
      if log.id = editingId then { log with completedQuantity := some v } else log)

/-- Delta condition of the log invariant: the predecessor is relevant
and the count delta is non-negative while the time delta is positive
and below the 60-minute window. -/
def validDelta (p e : LogEntry) : Prop :=
  p.isRelevant = true ∧ 0 ≤ e.bottles - p.bottles ∧
    0 < (e.timestamp - p.timestamp) / 60000 ∧ (e.timestamp - p.timestamp) / 60000 < 60

instance (p e : LogEntry) : Decidable (validDelta p e) := by
  unfold validDelta; infer_instance

/-- The spec's log-state invariant: an entry has a defined status
(normal or slow) only if it is relevant and some sequence-earlier
relevant entry gives it a valid delta. -/
def LogInv (logs : List LogEntry) : Prop :=
  ∀ i : Fin logs.length, (logs.get i).status ≠ RStatus.unknown →
    (logs.get i).isRelevant = true ∧
      ∃ j : Fin logs.length, (j : ℕ) < (i : ℕ) ∧ validDelta (logs.get j) (logs.get i)

instance (logs : List LogEntry) : Decidable (LogInv logs) := by
  unfold LogInv; infer_instance

/-- Modelled from the claim wording of the bare-number selection: the
maximum-valued digit run among runs of exactly 4 characters, else
exactly 3, else exactly 2, else the global maximum over all runs. -/
def selectByRunLength (texts : List (List Char)) : Option ℤ :=
  let runs := texts.flatMap (fun t => digitRuns (cleanText t))
  if runs = [] then none
  else
    let pick (k : ℕ) := runs.filter (fun r => r.length = k)
    if pick 4 ≠ [] then some (jsMaxList ((pick 4).map runVal))
    else if pick 3 ≠ [] then some (jsMaxList ((pick 3).map runVal))
    else if pick 2 ≠ [] then some (jsMaxList ((pick 2).map runVal))
    else some (jsMaxList (runs.map runVal))

/-- Modelled from the spec: the first balanced `{...}` substring of a
text (brace depth counter from the first opening brace). -/
def balancedFrom (depth : ℕ) (acc : List Char) : List Char → Option (List Char)
  | [] => none
  | c :: cs =>
    if c = '{' then balancedFrom (depth + 1) (c :: acc) cs
    else if c = '}' then
      match depth with
      | 0 => none
      | 1 => some ((c :: acc).reverse)
      | d + 2 => balancedFrom (d + 1) (c :: acc) cs
    else balancedFrom depth (c :: acc) cs

/-- Modelled from the spec: scan to the first `{` and return the first
balanced `{...}` substring, if any. -/
def firstBalancedBrace : List Char → Option (List Char)
  | [] => none
  | c :: cs =>
    if c = '{' then balancedFrom 1 [c] cs
    else firstBalancedBrace cs

example : firstBalancedBrace ("x\x7b\"a\":1\x7dy\x7b\"b\":2\x7dz".data) =
    some ("\x7b\"a\":1\x7d".data) := by decide

/-- Sample relevant entry at timestamp 0 with zero counts and no
derived rate yet. -/
def sampleE1 : LogEntry :=
  { id := "1", timestamp := 0, boxes := 0, bottles := 0, bpm := 0,
    status := .unknown, imageUrl := none, summary := none, isRelevant := true }

/-- Sample relevant entry at 2 minutes with 1000 bottles. -/
def sampleE2 : LogEntry :=
  { id := "2", timestamp := 120000, boxes := 10, bottles := 1000, bpm := 0,
    status := .unknown, imageUrl := none, summary := none, isRelevant := true }

/-- Sample relevant entry at 1 minute, appended after `sampleE2`: its
timestamp is backdated between `sampleE1` and `sampleE2`. -/
def sampleE3 : LogEntry :=
  { id := "3", timestamp := 60000, boxes := 0, bottles := 0, bpm := 0,
    status := .unknown, imageUrl := none, summary := none, isRelevant := true }

/-- Pointwise `Forall₂` between a list and its image under a map. -/
theorem forall₂_map_self {α : Type} (f : α → α) (P : α → α → Prop) (l : List α)
    (h : ∀ a ∈ l, P a (f a)) : List.Forall₂ P l (l.map f) := by
  induction l with
  | nil => exact List.Forall₂.nil
  | cons a t ih =>
    exact List.Forall₂.cons (h a (by simp)) (ih (fun x hx => h x (by simp [hx])))

/-- C1 (amended).  Rate calculation on a new reading: with
`deltaMinutes = (currentTimestamp - previousTimestamp)/60000` in the
open interval `(0, 60)` — not `(0, 60]` — and a non-negative count
delta, the derived rate is `round(delta / deltaMinutes)`, it is
non-negative, and the status is `normal` iff the rate reaches the fixed
threshold 50, else `slow`; outside that window, or with a negative
count delta, the rate is undefined and the status is `unknown` (the
calculation is a total function, so nothing is thrown). -/
theorem calcBpm_spec (cv ct pv pt : ℚ) :
    (0 < (ct - pt) / 1000 / 60 → (ct - pt) / 1000 / 60 < 60 → 0 ≤ cv - pv →
      calcBpm cv ct pv pt =
        (some (round ((cv - pv) / ((ct - pt) / 1000 / 60))),
          if 50 ≤ round ((cv - pv) / ((ct - pt) / 1000 / 60)) then RStatus.normal
          else RStatus.slow) ∧
        0 ≤ round ((cv - pv) / ((ct - pt) / 1000 / 60))) ∧
    (¬(0 < (ct - pt) / 1000 / 60 ∧ (ct - pt) / 1000 / 60 < 60) ∨ cv - pv < 0 →
      calcBpm cv ct pv pt = (none, RStatus.unknown)) := by
  constructor
  · intro h1 h2 h3
    refine ⟨?_, ?_⟩
    · unfold calcBpm
      rw [if_pos ⟨h1, h2⟩, if_pos h3]
    · rw [round_eq]
      refine Int.floor_nonneg.mpr ?_
      have hq : 0 ≤ (cv - pv) / ((ct - pt) / 1000 / 60) := div_nonneg h3 (le_of_lt h1)
      linarith
  · intro h
    unfold calcBpm
    rcases h with h | h
    · rw [if_neg h]
    · by_cases hw : 0 < (ct - pt) / 1000 / 60 ∧ (ct - pt) / 1000 / 60 < 60
      · rw [if_pos hw, if_neg (not_le.mpr h)]
      · rw [if_neg hw]

/-- C1 witness: a valid reading (2-minute delta, +120 bottles) derives
rate 60 and status normal. -/
theorem calcBpm_spec_witness : calcBpm 220 120000 100 0 = (some 60, RStatus.normal) := by
  have h := ((calcBpm_spec 220 120000 100 0).1 (by norm_num) (by norm_num) (by norm_num)).1
  rw [h]
  norm_num [round_eq]

/-- C1 counterexample: at `deltaMinutes = 60` exactly — inside the
claim's `(0, 60]` window, with a non-negative delta — the code leaves
the rate undefined and the status unknown. -/
theorem calcBpm_boundary_counterexample :
    ((3600000 : ℚ) - 0) / 1000 / 60 = 60 ∧ (0 : ℚ) ≤ 160 - 100 ∧
      calcBpm 160 3600000 100 0 = (none, RStatus.unknown) := by
  refine ⟨by norm_num, by norm_num, ?_⟩
  norm_num [calcBpm]

/-- C4.  Frame property of a valid correction, in both clients: every
entry whose id differs from the edited id is returned unchanged in all
fields (in particular no recomputation cascades to later entries). -/
theorem correction_frame (v : ℚ) (hv : 0 ≤ v) :
    (∀ (logs : List LogEntry) (editingId : String),
      List.Forall₂ (fun a b => a.id ≠ editingId → b = a) logs
        (handleSaveEdit logs editingId (some v))) ∧
    (∀ (logs : List MetaLogEntry) (editingId : String),
      List.Forall₂ (fun a b => a.id ≠ editingId → b = a) logs
        (handleSaveEditMeta logs editingId (some v))) := by
  constructor
  · intro logs editingId
    simp only [handleSaveEdit]
    by_cases hneg : v < 0
    · rw [if_pos hneg]
      exact List.forall₂_same.mpr (fun x _ _ => rfl)
    · rw [if_neg hneg]
      refine forall₂_map_self _ _ _ (fun a _ hne => ?_)
      simp [hne]
  · intro logs editingId
    simp only [handleSaveEditMeta]
    by_cases hneg : v < 0
    · rw [if_pos hneg]
      exact List.forall₂_same.mpr (fun x _ _ => rfl)
    · rw [if_neg hneg]
      refine forall₂_map_self _ _ _ (fun a _ hne => ?_)
      simp [hne]

/-- C4 witness: the frame property at a concrete two-entry log and a
concrete valid correction of entry 2. -/
theorem correction_frame_witness :
    List.Forall₂ (fun a b => a.id ≠ "2" → b = a) [sampleE1, sampleE2]
      (handleSaveEdit [sampleE1, sampleE2] "2" (some 3)) :=
  (correction_frame 3 (by norm_num)).1 [sampleE1, sampleE2] "2"

/-- C5 (amended).  Normalizer error path: whenever JSON parsing of the
extracted block fails, the route returns the degraded record with
`isRelevant = false`, both schema fields null, no rate, status unknown,
and a summary equal to a fixed Korean error message followed by the raw
unparsed text (so the summary contains the raw text but is not equal to
it); the failure path is a total function, nothing escapes it. -/
theorem normalizeCounter_parse_failure (t : List Char) (pb pt : Option ℚ) (now : ℚ)
    (h : parseJson (extractJsonStr t) = none) :
    normalizeCounter t pb pt now =
      .ok { isRelevant := .bool false, boxCount := .null, bottleCount := .null,
            bpm := none, status := .unknown,
            summary := .str (parseFailMsg ++ t), rawText := t } := by
  unfold normalizeCounter
  rw [h]

/-- C5 witness: the unparsable reply `I see a desk` produces exactly
the degraded record. -/
theorem normalizeCounter_parse_failure_witness :
    normalizeCounter ("I see a desk".data) none none 0 =
      .ok { isRelevant := .bool false, boxCount := .null, bottleCount := .null,
            bpm := none, status := .unknown,
            summary := .str (parseFailMsg ++ ("I see a desk".data)),
            rawText := ("I see a desk".data) } :=
  normalizeCounter_parse_failure ("I see a desk".data) none none 0 (by decide)

/-- C5 counterexample: on the unparsable reply `I see a desk` the
summary is the error message plus the raw text, which differs from the
raw text itself — the claim's `summary equal to the raw unparsed text`
fails. -/
theorem normalizeCounter_summary_counterexample :
    parseJson (extractJsonStr ("I see a desk".data)) = none ∧
    normalizeCounter ("I see a desk".data) none none 0 =
      .ok { isRelevant := .bool false, boxCount := .null, bottleCount := .null,
            bpm := none, status := .unknown,
            summary := .str (parseFailMsg ++ ("I see a desk".data)),
            rawText := ("I see a desk".data) } ∧
    Json.str (parseFailMsg ++ ("I see a desk".data)) ≠ Json.str ("I see a desk".data) := by
  refine ⟨by decide, by decide, by decide⟩

/-- Sample wire response with a null bottle count (box count 5). -/
def sampleResp : OCRResponse :=
  { isRelevant := true, boxCount := some 5, bottleCount := none, bpm := some 60,
    status := some .normal, summary := "counter" }

/-- C9.  Implicit box/bottle coupling: an accepted correction stores
`bottles = 100 * newBoxes` on the edited entry (overwriting whatever
bottle count was recorded), and a relevant reading appended with a null
`bottleCount` is stored with `bottles = 100 * boxes`. -/
theorem bottle_coupling :
    (∀ (logs : List LogEntry) (editingId : String) (v : ℚ), 0 ≤ v →
      List.Forall₂ (fun a b => a.id = editingId → b.bottles = 100 * v ∧ b.boxes = v)
        logs (handleSaveEdit logs editingId (some v))) ∧
    (∀ (logs : List LogEntry) (result : OCRResponse) (ts : ℚ) (nid : String)
        (img : Option String), result.bottleCount = none →
      ∃ e, appendRelevant logs result ts nid img = logs ++ [e] ∧
        e.bottles = 100 * e.boxes ∧ e.isRelevant = true) := by
  constructor
  · intro logs editingId v hv
    simp only [handleSaveEdit]
    rw [if_neg (not_lt.mpr hv)]
    refine forall₂_map_self _ _ _ (fun a _ hid => ?_)
    rw [if_pos hid]
    exact ⟨mul_comm v 100, rfl⟩
  · intro logs result ts nid img hbc
    refine ⟨_, rfl, ?_, rfl⟩
    show jsOrQ result.bottleCount _ = _
    rw [hbc]
    exact mul_comm _ _

/-- C9 witness: the coupling at a concrete correction (new box count 3)
and a concrete appended reading with null bottle count. -/
theorem bottle_coupling_witness :
    List.Forall₂ (fun a b => a.id = "2" → b.bottles = 100 * (3 : ℚ) ∧ b.boxes = 3)
      [sampleE1, sampleE2] (handleSaveEdit [sampleE1, sampleE2] "2" (some 3)) ∧
    ∃ e, appendRelevant [sampleE1] sampleResp 60000 "9" none = [sampleE1] ++ [e] ∧
      e.bottles = 100 * e.boxes ∧ e.isRelevant = true :=
  ⟨bottle_coupling.1 [sampleE1, sampleE2] "2" 3 (by norm_num),
   bottle_coupling.2 [sampleE1] sampleResp 60000 "9" none rfl⟩

/-- C8.  Normalizer defaulting on a successfully parsed structured
(object) reply, in both route variants: a missing `isRelevant` defaults
to `false`, each missing schema field defaults to `null`, and a missing
`summary` defaults to the empty string. -/
theorem normalize_defaults :
    (∀ (t : List Char) (pb pt : Option ℚ) (now : ℚ) fields,
      parseJson (extractJsonStr t) = some (.obj fields) →
      ∃ d, normalizeCounter t pb pt now = .ok d ∧
        (jget (.obj fields) keyIsRelevant = none → d.isRelevant = .bool false) ∧
        (jget (.obj fields) keyBoxCount = none → d.boxCount = .null) ∧
        (jget (.obj fields) keyBottleCount = none → d.bottleCount = .null) ∧
        (jget (.obj fields) keySummary = none → d.summary = .str [])) ∧
    (∀ (t : List Char) fields,
      parseJson (extractJsonStr t) = some (.obj fields) →
      ∃ d, normalizeMeta t = .ok d ∧
        (jget (.obj fields) keyIsRelevant = none → d.isRelevant = .bool false) ∧
        (jget (.obj fields) keyOperatingLine = none → d.operatingLine = .null) ∧
        (jget (.obj fields) keyProductionDate = none → d.productionDate = .null) ∧
        (jget (.obj fields) keyPlannedQuantity = none → d.plannedQuantity = .null) ∧
        (jget (.obj fields) keyProductName = none → d.productName = .null) ∧
        (jget (.obj fields) keyCompletedQuantity = none → d.completedQuantity = .null) ∧
        (jget (.obj fields) keyLotNo = none → d.lotNo = .null) ∧
        (jget (.obj fields) keySummary = none → d.summary = .str [])) := by
  constructor
  · intro t pb pt now fields h
    simp only [normalizeCounter, h]
    rw [if_neg (by intro hh; injection hh)]
    refine ⟨_, rfl, ?_, ?_, ?_, ?_⟩ <;> (intro hm; simp [jsCoalesce, hm])
  · intro t fields h
    simp only [normalizeMeta, h]
    rw [if_neg (by intro hh; injection hh)]
    refine ⟨_, rfl, ?_, ?_, ?_, ?_, ?_, ?_, ?_, ?_⟩ <;> (intro hm; simp [jsCoalesce, hm])

/-- C8 witness: the reply `{}` parses to an empty object, and both
normalizers default every field. -/
theorem normalize_defaults_witness :
    (∃ d, normalizeCounter (" \x7b \x7d ".data) none none 0 = .ok d ∧
       (jget (.obj []) keyIsRelevant = none → d.isRelevant = .bool false) ∧
       (jget (.obj []) keyBoxCount = none → d.boxCount = .null) ∧
       (jget (.obj []) keyBottleCount = none → d.bottleCount = .null) ∧
       (jget (.obj []) keySummary = none → d.summary = .str [])) ∧
    (∃ d, normalizeMeta (" \x7b \x7d ".data) = .ok d ∧
       (jget (.obj []) keyIsRelevant = none → d.isRelevant = .bool false) ∧
       (jget (.obj []) keyOperatingLine = none → d.operatingLine = .null) ∧
       (jget (.obj []) keyProductionDate = none → d.productionDate = .null) ∧
       (jget (.obj []) keyPlannedQuantity = none → d.plannedQuantity = .null) ∧
       (jget (.obj []) keyProductName = none → d.productName = .null) ∧
       (jget (.obj []) keyCompletedQuantity = none → d.completedQuantity = .null) ∧
       (jget (.obj []) keyLotNo = none → d.lotNo = .null) ∧
       (jget (.obj []) keySummary = none → d.summary = .str [])) :=
  ⟨normalize_defaults.1 (" \x7b \x7d ".data) none none 0 [] (by decide),
   normalize_defaults.2 (" \x7b \x7d ".data) [] (by decide)⟩

/-- C3 counterexample: the singleton log holding one relevant entry
with status unknown satisfies the invariant, but correcting that entry
(no preceding relevant entry exists) assigns it status slow, so the
corrected log violates the invariant. -/
theorem logInv_correction_counterexample :
    LogInv [sampleE1] ∧ ¬ LogInv (handleSaveEdit [sampleE1] "1" (some 5)) := by
  decide

/-- C3 (amended).  What the operations actually guarantee: appending an
irrelevant reading preserves the log-state invariant; the server rate
calculation yields a defined status only under its guard (positive
sub-hour time delta and non-negative count delta); but a correction
unconditionally assigns the edited entry a defined status (normal or
slow), even when no preceding relevant entry exists, so the invariant
is not preserved by correction. -/
theorem logInv_operations :
    (∀ (logs : List LogEntry) (s : String) (ts : ℚ) (nid : String) (img : Option String),
      LogInv logs → LogInv (appendIrrelevant logs s ts nid img)) ∧
    (∀ cv ct pv pt : ℚ, (calcBpm cv ct pv pt).2 ≠ RStatus.unknown →
      0 < (ct - pt) / 1000 / 60 ∧ (ct - pt) / 1000 / 60 < 60 ∧ 0 ≤ cv - pv) ∧
    (∀ (logs : List LogEntry) (eid : String) (v : ℚ), 0 ≤ v →
      ∀ e ∈ handleSaveEdit logs eid (some v), e.id = eid → e.status ≠ RStatus.unknown) := by
  refine ⟨?_, ?_, ?_⟩
  · intro logs s ts nid img hInv i hstat
    by_cases hlt : (i : ℕ) < logs.length
    · have e1 : (appendIrrelevant logs s ts nid img).get i = logs[(i : ℕ)] := by
        simp only [appendIrrelevant, List.get_eq_getElem]
        exact List.getElem_append_left hlt
      rw [e1] at hstat ⊢
      obtain ⟨hrel, j, hjlt, hvd⟩ := hInv ⟨(i : ℕ), hlt⟩ hstat
      have hjlen : (j : ℕ) < (appendIrrelevant logs s ts nid img).length := by
        simp only [appendIrrelevant, List.length_append, List.length_cons, List.length_nil]
        omega
      have e2 : (appendIrrelevant logs s ts nid img).get ⟨(j : ℕ), hjlen⟩ = logs[(j : ℕ)] := by
        simp only [appendIrrelevant, List.get_eq_getElem]
        exact List.getElem_append_left j.isLt
      refine ⟨hrel, ⟨(j : ℕ), hjlen⟩, hjlt, ?_⟩
      rw [e2]
      exact hvd
    · have hieq : (i : ℕ) = logs.length := by
        have := i.isLt
        simp only [appendIrrelevant, List.length_append, List.length_cons,
          List.length_nil] at this
        omega
      have e1 : (appendIrrelevant logs s ts nid img).get i = irrelevantEntry s ts nid img := by
        simp only [appendIrrelevant, List.get_eq_getElem]
        rw [List.getElem_append_right (le_of_eq hieq.symm)]
        simp [hieq]
      rw [e1] at hstat
      exact absurd rfl hstat
  · intro cv ct pv pt h
    simp only [calcBpm] at h
    by_cases hw : 0 < (ct - pt) / 1000 / 60 ∧ (ct - pt) / 1000 / 60 < 60
    · rw [if_pos hw] at h
      by_cases hd : 0 ≤ cv - pv
      · exact ⟨hw.1, hw.2, hd⟩
      · rw [if_neg hd] at h
        exact absurd rfl h
    · rw [if_neg hw] at h
      exact absurd rfl h
  · intro logs eid v hv e he hid
    simp only [handleSaveEdit] at he
    rw [if_neg (not_lt.mpr hv)] at he
    obtain ⟨a, ha, hae⟩ := List.mem_map.mp he
    by_cases haid : a.id = eid
    · rw [if_pos haid] at hae
      rw [← hae]
      simp only [applyEdit]
      split
      · intro hh; injection hh
      · intro hh; injection hh
    · rw [if_neg haid] at hae
      rw [← hae] at hid
      exact absurd hid haid

/-- C3 witness: the amended guarantees at concrete inputs (append of an
irrelevant reading to the empty log, a valid rate-calculator run, and a
concrete correction). -/
theorem logInv_operations_witness :
    LogInv (appendIrrelevant [] "desk" 0 "1" none) ∧
    (0 < ((120000 : ℚ) - 0) / 1000 / 60 ∧ ((120000 : ℚ) - 0) / 1000 / 60 < 60 ∧
      0 ≤ (220 : ℚ) - 100) ∧
    (∀ e ∈ handleSaveEdit [sampleE1] "1" (some 5), e.id = "1" → e.status ≠ RStatus.unknown) :=
  ⟨logInv_operations.1 [] "desk" 0 "1" none (by decide),
   logInv_operations.2.1 220 120000 100 0 (by norm_num [calcBpm, round_eq]; decide),
   logInv_operations.2.2 [sampleE1] "1" 5 (by norm_num)⟩

/-- The seed of a max fold bounds the result from below. -/
theorem le_foldl_max (a : ℤ) (l : List ℤ) : a ≤ l.foldl max a := by
  induction l generalizing a with
  | nil => exact le_refl a
  | cons b t ih => exact le_trans (le_max_left a b) (ih (max a b))

/-- Every member of the list bounds the max fold from below. -/
theorem mem_le_foldl_max (l : List ℤ) (a : ℤ) : ∀ x ∈ l, x ≤ l.foldl max a := by
  induction l generalizing a with
  | nil => intro x hx; cases hx
  | cons b t ih =>
    intro x hx
    rcases List.mem_cons.mp hx with he | ht
    · subst he
      exact le_trans (le_max_right a x) (le_foldl_max _ t)
    · exact ih (max a b) x ht

/-- The max fold returns its seed or a member. -/
theorem foldl_max_mem (a : ℤ) (l : List ℤ) : l.foldl max a = a ∨ l.foldl max a ∈ l := by
  induction l generalizing a with
  | nil => exact Or.inl rfl
  | cons b t ih =>
    rcases ih (max a b) with he | hm
    · rcases max_choice a b with hab | hab
      · exact Or.inl (by rw [List.foldl_cons, he, hab])
      · refine Or.inr ?_
        rw [List.foldl_cons, he, hab]
        exact List.mem_cons_self b t
    · exact Or.inr (List.mem_cons_of_mem b hm)

/-- Value of `Math.max` on a nonempty list is a member of the list. -/
theorem jsMaxList_mem (l : List ℤ) (h : l ≠ []) : jsMaxList l ∈ l := by
  cases l with
  | nil => exact absurd rfl h
  | cons b t =>
    rcases foldl_max_mem b t with he | hm
    · rw [jsMaxList, he]
      exact List.mem_cons_self b t
    · exact List.mem_cons_of_mem b hm

/-- Value of `Math.max` on a list bounds every member from above. -/
theorem le_jsMaxList (l : List ℤ) : ∀ x ∈ l, x ≤ jsMaxList l := by
  intro x hx
  cases l with
  | nil => cases hx
  | cons b t =>
    rcases List.mem_cons.mp hx with he | ht
    · subst he
      exact le_foldl_max x t
    · exact mem_le_foldl_max t b x ht

/-- ASCII upper-casing fixes decimal digits. -/
theorem jsToUpper_digit (c : Char) (h : c.isDigit = true) : jsToUpper c = c := by
  simp only [Char.isDigit, Bool.and_eq_true, decide_eq_true_eq] at h
  unfold jsToUpper
  rw [if_neg]
  intro hh
  have h3 : ('a' : Char).val ≤ c.val := Char.le_def.mp hh.1
  have a1 : c.val.toNat ≤ (57 : UInt32).toNat := h.2
  have b1 : (97 : UInt32).toNat ≤ c.val.toNat := h3
  have e1 : (57 : UInt32).toNat = 57 := rfl
  have e2 : (97 : UInt32).toNat = 97 := rfl
  omega

/-- A decimal digit is not regex whitespace. -/
theorem digit_not_jsWs (c : Char) (h : c.isDigit = true) : jsWs c = false := by
  by_contra h2
  rw [Bool.not_eq_false] at h2
  simp only [jsWs, Bool.or_eq_true, decide_eq_true_eq] at h2
  rcases h2 with ((((h2 | h2) | h2) | h2) | h2) | h2 <;>
    (subst h2; exact absurd h (by decide))

/-- Membership survives `dropWhile` when the predicate fails on the
element. -/
theorem mem_dropWhile_of_not (p : Char → Bool) (l : List Char) (c : Char)
    (hc : c ∈ l) (hp : p c = false) : c ∈ l.dropWhile p := by
  induction l with
  | nil => cases hc
  | cons a t ih =>
    rw [List.dropWhile_cons]
    by_cases ha : p a = true
    · rw [if_pos ha]
      rcases List.mem_cons.mp hc with he | ht
      · subst he
        rw [hp] at ha
        cases ha
      · exact ih ht
    · rw [if_neg ha]
      exact hc

/-- Membership survives whitespace trimming for non-whitespace
characters. -/
theorem mem_trimWs (t : List Char) (c : Char) (hc : c ∈ t) (hws : jsWs c = false) :
    c ∈ trimWs t := by
  unfold trimWs
  rw [List.mem_reverse]
  refine mem_dropWhile_of_not _ _ _ ?_ hws
  rw [List.mem_reverse]
  exact mem_dropWhile_of_not _ _ _ hc hws

/-- A text whose characters are all non-digits has no digit runs. -/
theorem digitRunsAux_nil (l : List Char) (h : ∀ c ∈ l, c.isDigit = false) :
    digitRunsAux [] l = [] := by
  induction l with
  | nil => rfl
  | cons a t ih =>
    have ha := h a (List.mem_cons_self a t)
    rw [digitRunsAux, ha]
    simp only [Bool.false_eq_true, if_false, if_pos rfl]
    exact ih (fun c hc => h c (List.mem_cons_of_mem a hc))

/-- A nonempty run list yields a digit character of the text. -/
theorem exists_digit_of_runs (l : List Char) (h : digitRuns l ≠ []) :
    ∃ c ∈ l, c.isDigit = true := by
  by_contra h2
  push_neg at h2
  refine h (digitRunsAux_nil l (fun c hc => ?_))
  have := h2 c hc
  exact Bool.not_eq_true _ ▸ (by simpa using this)

/-- Characterization of the collected numbers of the Vision route. -/
theorem mem_collectNumbers (texts : List (List Char)) (n : ℤ) :
    n ∈ collectNumbers texts ↔
      ∃ t ∈ texts, ∃ r ∈ digitRuns (cleanText t), runVal r = n ∧ 0 < n := by
  unfold collectNumbers
  simp only [List.mem_flatMap, List.mem_filter, List.mem_map, decide_eq_true_eq]
  constructor
  · rintro ⟨t, ht, ⟨r, hr, hrv⟩, hpos⟩
    exact ⟨t, ht, r, hr, hrv, hpos⟩
  · rintro ⟨t, ht, r, hr, hrv, hpos⟩
    exact ⟨t, ht, ⟨r, hr, hrv⟩, hpos⟩

/-- The route-level collected numbers agree with the single-text view. -/
theorem mem_collectNumbersRoute (t : List Char) (n : ℤ) :
    n ∈ collectNumbersRoute t ↔
      ∃ r ∈ digitRuns (cleanText t), runVal r = n ∧ 0 < n := by
  unfold collectNumbersRoute
  simp only [List.mem_filter, List.mem_map, decide_eq_true_eq]
  constructor
  · rintro ⟨⟨r, hr, hrv⟩, hpos⟩
    exact ⟨r, hr, hrv, hpos⟩
  · rintro ⟨r, hr, hrv, hpos⟩
    exact ⟨⟨r, hr, hrv⟩, hpos⟩

/-- The selected number of the Vision route is one of the collected
numbers. -/
theorem selectNumber_mem (nums : List ℤ) (h : nums ≠ []) : selectNumber nums ∈ nums := by
  unfold selectNumber
  split_ifs with h4 h3 h2
  · exact List.mem_of_mem_filter (jsMaxList_mem _ h4)
  · exact List.mem_of_mem_filter (jsMaxList_mem _ h3)
  · exact List.mem_of_mem_filter (jsMaxList_mem _ h2)
  · exact jsMaxList_mem _ h

/-- If the sentinel check fires, the text has no digit runs: the
trimmed, upper-cased text is the digit-free literal `NO_NUMBER`, and
case-mapping and trimming preserve digit characters. -/
theorem noNumber_no_runs (t : List Char) (h : isNoNumberReply t = true) :
    digitRuns (cleanText t) = [] := by
  by_contra hruns
  obtain ⟨c, hc, hdig⟩ := exists_digit_of_runs _ hruns
  have hct : c ∈ t := List.mem_of_mem_filter hc
  have hcw : jsWs c = false := digit_not_jsWs c hdig
  have htrim : c ∈ trimWs t := mem_trimWs t c hct hcw
  have hmap : jsToUpper c ∈ (trimWs t).map jsToUpper := List.mem_map_of_mem jsToUpper htrim
  rw [jsToUpper_digit c hdig] at hmap
  unfold isNoNumberReply at h
  rw [decide_eq_true_eq] at h
  rw [h] at hmap
  unfold noNumberLit at hmap
  have hlit : ("NO_NUMBER".data) = ['N', 'O', '_', 'N', 'U', 'M', 'B', 'E', 'R'] := rfl
  rw [hlit] at hmap
  simp only [List.mem_cons, List.not_mem_nil, or_false] at hmap
  have : c.isDigit = false := by
    rcases hmap with h1 | h1 | h1 | h1 | h1 | h1 | h1 | h1 | h1 <;> (subst h1; decide)
  rw [this] at hdig
  cases hdig

/-- C10.  Implicit positivity of bare-number extraction, in both
routes: a number is returned iff some digit run of the cleaned text
parses to a strictly positive integer (runs parsing to 0 are
discarded), a reading of `0` yields the `NO_NUMBERS` outcome rather
than the number 0, and every returned number is strictly positive. -/
theorem extraction_positivity :
    (∀ texts, (extractNumber texts).isSome = true ↔
      ∃ t ∈ texts, ∃ r ∈ digitRuns (cleanText t), 0 < runVal r) ∧
    (∀ texts n, extractNumber texts = some n → 0 < n) ∧
    extractNumber [("0".data)] = none ∧
    (∀ t, (extractNumberRoute t).isSome = true ↔
      ∃ r ∈ digitRuns (cleanText t), 0 < runVal r) ∧
    (∀ t n, extractNumberRoute t = some n → 0 < n) ∧
    extractNumberRoute ("0".data) = none := by
  have hiff : ∀ texts, collectNumbers texts ≠ [] ↔
      ∃ t ∈ texts, ∃ r ∈ digitRuns (cleanText t), 0 < runVal r := by
    intro texts
    constructor
    · intro hne
      obtain ⟨n, hn⟩ := List.exists_mem_of_ne_nil _ hne
      obtain ⟨t, ht, r, hr, hrv, hpos⟩ := (mem_collectNumbers texts n).mp hn
      exact ⟨t, ht, r, hr, hrv ▸ hpos⟩
    · rintro ⟨t, ht, r, hr, hpos⟩
      exact List.ne_nil_of_mem ((mem_collectNumbers texts (runVal r)).mpr
        ⟨t, ht, r, hr, rfl, hpos⟩)
  refine ⟨?_, ?_, by decide, ?_, ?_, by decide⟩
  · intro texts
    rw [← hiff texts]
    unfold extractNumber
    by_cases hnil : collectNumbers texts = []
    · simp [hnil]
    · simp [hnil]
  · intro texts n hsome
    unfold extractNumber at hsome
    by_cases hnil : collectNumbers texts = []
    · rw [if_pos hnil] at hsome
      cases hsome
    · rw [if_neg hnil] at hsome
      injection hsome with hn
      obtain ⟨t, ht, r, hr, hrv, hpos⟩ := (mem_collectNumbers texts _).mp
        (hn ▸ selectNumber_mem _ hnil)
      exact hpos
  · intro t
    unfold extractNumberRoute
    by_cases hnn : isNoNumberReply t = true
    · rw [if_pos hnn]
      simp only [Option.isSome_none, Bool.false_eq_true, false_iff]
      rintro ⟨r, hr, hpos⟩
      rw [noNumber_no_runs t hnn] at hr
      cases hr
    · rw [if_neg hnn]
      by_cases hnil : collectNumbersRoute t = []
      · rw [if_pos hnil]
        simp only [Option.isSome_none, Bool.false_eq_true, false_iff]
        rintro ⟨r, hr, hpos⟩
        refine List.ne_nil_of_mem ((mem_collectNumbersRoute t (runVal r)).mpr
          ⟨r, hr, rfl, hpos⟩) hnil
      · rw [if_neg hnil]
        simp only [Option.isSome_some, true_iff]
        obtain ⟨n, hn⟩ := List.exists_mem_of_ne_nil _ hnil
        obtain ⟨r, hr, hrv, hpos⟩ := (mem_collectNumbersRoute t n).mp hn
        exact ⟨r, hr, hrv ▸ hpos⟩
  · intro t n hsome
    unfold extractNumberRoute at hsome
    by_cases hnn : isNoNumberReply t = true
    · rw [if_pos hnn] at hsome
      cases hsome
    · rw [if_neg hnn] at hsome
      by_cases hnil : collectNumbersRoute t = []
      · rw [if_pos hnil] at hsome
        cases hsome
      · rw [if_neg hnil] at hsome
        injection hsome with hn
        obtain ⟨r, hr, hrv, hpos⟩ := (mem_collectNumbersRoute t _).mp
          (hn ▸ jsMaxList_mem _ hnil)
        exact hpos

/-- C10 witness: both routes at concrete replies with positive digit
runs. -/
theorem extraction_positivity_witness :
    (0 : ℤ) < 1234 ∧ (0 : ℤ) < 4523 :=
  ⟨extraction_positivity.2.1 [("The count is 1,234 units on line 2".data)] 1234 (by decide),
   extraction_positivity.2.2.2.2.1 ("counter shows 4,523 and 45".data) 4523 (by decide)⟩

/-- C6 (amended).  Bare-number selection: among the positive parsed
values, the Vision route selects the maximum of the value bucket
1000–9999 if nonempty, else of 100–999, else of 10–99, else the global
maximum (buckets are by numeric value after parsing, so a run with
leading zeros counts by its value, not its digit length); extraction of
`The count is 1,234 units on line 2` yields 1234; the simpler Gemini
number route always selects the global maximum of the positive runs. -/
theorem bucket_selection :
    extractNumber [("The count is 1,234 units on line 2".data)] = some 1234 ∧
    (∀ texts n, extractNumber texts = some n →
      n ∈ collectNumbers texts ∧
      (fourDigitNumbers (collectNumbers texts) ≠ [] →
        n ∈ fourDigitNumbers (collectNumbers texts) ∧
          ∀ m ∈ fourDigitNumbers (collectNumbers texts), m ≤ n) ∧
      (fourDigitNumbers (collectNumbers texts) = [] →
        threeDigitNumbers (collectNumbers texts) ≠ [] →
        n ∈ threeDigitNumbers (collectNumbers texts) ∧
          ∀ m ∈ threeDigitNumbers (collectNumbers texts), m ≤ n) ∧
      (fourDigitNumbers (collectNumbers texts) = [] →
        threeDigitNumbers (collectNumbers texts) = [] →
        twoDigitNumbers (collectNumbers texts) ≠ [] →
        n ∈ twoDigitNumbers (collectNumbers texts) ∧
          ∀ m ∈ twoDigitNumbers (collectNumbers texts), m ≤ n) ∧
      (fourDigitNumbers (collectNumbers texts) = [] →
        threeDigitNumbers (collectNumbers texts) = [] →
        twoDigitNumbers (collectNumbers texts) = [] →
        ∀ m ∈ collectNumbers texts, m ≤ n)) ∧
    (∀ t n, extractNumberRoute t = some n → ∀ m ∈ collectNumbersRoute t, m ≤ n) := by
  refine ⟨by decide, ?_, ?_⟩
  · intro texts n hsome
    unfold extractNumber at hsome
    by_cases hnil : collectNumbers texts = []
    · rw [if_pos hnil] at hsome
      cases hsome
    · rw [if_neg hnil] at hsome
      injection hsome with hn
      subst hn
      refine ⟨selectNumber_mem _ hnil, ?_, ?_, ?_, ?_⟩
      · intro h4
        unfold selectNumber
        rw [if_pos h4]
        exact ⟨jsMaxList_mem _ h4, le_jsMaxList _⟩
      · intro h4 h3
        unfold selectNumber
        rw [if_neg (by simp [h4]), if_pos h3]
        exact ⟨jsMaxList_mem _ h3, le_jsMaxList _⟩
      · intro h4 h3 h2
        unfold selectNumber
        rw [if_neg (by simp [h4]), if_neg (by simp [h3]), if_pos h2]
        exact ⟨jsMaxList_mem _ h2, le_jsMaxList _⟩
      · intro h4 h3 h2
        unfold selectNumber
        rw [if_neg (by simp [h4]), if_neg (by simp [h3]), if_neg (by simp [h2])]
        exact le_jsMaxList _
  · intro t n hsome m hm
    unfold extractNumberRoute at hsome
    by_cases hnn : isNoNumberReply t = true
    · rw [if_pos hnn] at hsome
      cases hsome
    · rw [if_neg hnn] at hsome
      by_cases hnil : collectNumbersRoute t = []
      · rw [if_pos hnil] at hsome
        cases hsome
      · rw [if_neg hnil] at hsome
        injection hsome with hn
        subst hn
        exact le_jsMaxList _ m hm

/-- C6 witness: the bucket properties instantiated at the cited example
text (value 1234 wins the four-digit bucket) and at a route reply whose
global maximum is 4523. -/
theorem bucket_selection_witness :
    (1234 : ℤ) ∈ collectNumbers [("The count is 1,234 units on line 2".data)] ∧
    (∀ m ∈ collectNumbersRoute ("counter shows 4,523 and 45".data), m ≤ (4523 : ℤ)) :=
  ⟨(bucket_selection.2.1 [("The count is 1,234 units on line 2".data)] 1234 (by decide)).1,
   bucket_selection.2.2 ("counter shows 4,523 and 45".data) 4523 (by decide)⟩

/-- C6 counterexample: on the reply `0050x900` the run `0050` has
exactly 4 digits, so the claim's run-length rule selects its value 50,
but the code buckets by parsed value (50 is a two-digit value) and
returns 900. -/
theorem runLength_counterexample :
    extractNumber [("0050x900".data)] = some 900 ∧
    selectByRunLength [("0050x900".data)] = some 50 := by
  exact ⟨by decide, by decide⟩

/-- C2 counterexample: with the log `[e1 (t=0), e2 (t=2min), e3
(t=1min, backdated)]`, correcting e3's count to 1 box recomputes its
rate against e1 — the last relevant entry with an earlier timestamp —
yielding bpm 100 / normal, while the claim's positional rule would pick
e2 (negative time delta) and leave bpm 0 / slow. -/
theorem posTimestamp_counterexample :
    (handleSaveEdit [sampleE1, sampleE2, sampleE3] "3" (some 1)).map LogEntry.bpm =
      [0, 0, 100] ∧
    (handleSaveEditPos [sampleE1, sampleE2, sampleE3] "3" (some 1)).map LogEntry.bpm =
      [0, 0, 0] ∧
    (handleSaveEdit [sampleE1, sampleE2, sampleE3] "3" (some 1)).map LogEntry.status =
      [RStatus.unknown, RStatus.unknown, RStatus.normal] ∧
    (handleSaveEditPos [sampleE1, sampleE2, sampleE3] "3" (some 1)).map LogEntry.status =
      [RStatus.unknown, RStatus.unknown, RStatus.slow] := by
  norm_num [handleSaveEdit, handleSaveEditPos, saveEditPosGo, applyEdit, editRecompute,
    sampleE1, sampleE2, sampleE3, List.filter, List.getLast?, round_eq]
  decide

/-- In a strictly time-ordered window the timestamp filter of the
correction collapses to the positional predecessor pool. -/
theorem filter_window_eq (before : List LogEntry) (log : LogEntry) (rest : List LogEntry)
    (hb : ∀ a ∈ before, a.timestamp < log.timestamp)
    (hr : ∀ b ∈ rest, log.timestamp < b.timestamp) :
    (before ++ log :: rest).filter
        (fun l => l.isRelevant && decide (l.timestamp < log.timestamp)) =
      before.filter (fun l => l.isRelevant) := by
  rw [List.filter_append]
  have h1 : before.filter (fun l => l.isRelevant && decide (l.timestamp < log.timestamp)) =
      before.filter (fun l => l.isRelevant) :=
    List.filter_congr (fun x hx => by simp [hb x hx])
  have h2 : (log :: rest).filter
      (fun l => l.isRelevant && decide (l.timestamp < log.timestamp)) = [] := by
    rw [List.filter_eq_nil_iff]
    intro a ha
    rcases List.mem_cons.mp ha with he | ht
    · subst he
      simp
    · simp [lt_asymm (hr a ht)]
  rw [h1, h2, List.append_nil]

/-- Map form of the coincidence between the timestamp-based and the
position-based correction on a strictly time-ordered log. -/
theorem saveEdit_map_eq (editingId : String) (v : ℚ) :
    ∀ (rest before : List LogEntry),
      List.Pairwise (fun a b => a.timestamp < b.timestamp) (before ++ rest) →
      rest.map (fun log =>
        if log.id = editingId then
          applyEdit ((before ++ rest).filter
            (fun l => l.isRelevant && decide (l.timestamp < log.timestamp))) log v
        else log) = saveEditPosGo editingId v before rest := by
  intro rest
  induction rest with
  | nil => intro before _; rfl
  | cons log rest' ih =>
    intro before hpw
    rw [List.map_cons, saveEditPosGo]
    have hsplit := List.pairwise_append.mp hpw
    have hb : ∀ a ∈ before, a.timestamp < log.timestamp :=
      fun a ha => hsplit.2.2 a ha log (List.mem_cons_self _ _)
    have hr : ∀ b ∈ rest', log.timestamp < b.timestamp :=
      fun b hb2 => (List.pairwise_cons.mp hsplit.2.1).1 b hb2
    congr 1
    · by_cases hid : log.id = editingId
      · rw [if_pos hid, if_pos hid, filter_window_eq before log rest' hb hr]
      · rw [if_neg hid, if_neg hid]
    · have hassoc : (before ++ [log]) ++ rest' = before ++ log :: rest' := by simp
      have hpw' : List.Pairwise (fun a b => a.timestamp < b.timestamp)
          ((before ++ [log]) ++ rest') := by rw [hassoc]; exact hpw
      have hih := ih (before ++ [log]) hpw'
      simp only [hassoc] at hih
      exact hih

/-- C2 (amended).  The correction recomputes against the last relevant
entry, in log order, whose timestamp is strictly earlier than the
edited entry's — selection by timestamp, not by sequence position.
When the log's timestamps are strictly increasing along the insertion
order (no backdating), this coincides with the nearest preceding
relevant entry by log position, stated here as equality with the
position-based variant. -/
theorem positional_coincidence (logs : List LogEntry) (editingId : String)
    (editValue : Option ℚ)
    (hsorted : List.Pairwise (fun a b => a.timestamp < b.timestamp) logs) :
    handleSaveEdit logs editingId editValue = handleSaveEditPos logs editingId editValue := by
  cases editValue with
  | none => rfl
  | some v =>
    simp only [handleSaveEdit, handleSaveEditPos]
    by_cases hneg : v < 0
    · rw [if_pos hneg, if_pos hneg]
    · rw [if_neg hneg, if_neg hneg]
      have h := saveEdit_map_eq editingId v logs [] (by simpa using hsorted)
      simpa using h

/-- C2 witness: on a concrete time-ordered two-entry log the two
corrections agree. -/
theorem positional_coincidence_witness :
    handleSaveEdit [sampleE1, sampleE2] "2" (some 3) =
      handleSaveEditPos [sampleE1, sampleE2] "2" (some 3) :=
  positional_coincidence _ _ _ (by decide)

/-- The brace fallback on a decomposed text: with no fenced block, the
extraction returns the slice from the first opening brace to the last
closing brace. -/
theorem extract_brace_general (pre mid post : List Char)
    (hfence : findSub fencePat (pre ++ '{' :: (mid ++ '}' :: post)) = none)
    (hpre : '{' ∉ pre) (hpost : '}' ∉ post) :
    extractJsonStr (pre ++ '{' :: (mid ++ '}' :: post)) = '{' :: (mid ++ ['}']) := by
  have hi : (pre ++ '{' :: (mid ++ '}' :: post)).findIdx? (fun c => c = '{') =
      some pre.length := by
    rw [List.findIdx?_append]
    have h1 : pre.findIdx? (fun c => c = '{') = none :=
      List.findIdx?_eq_none_iff.mpr (fun x hx => by
        simp only [decide_eq_false_iff_not]
        exact fun he => hpre (he ▸ hx))
    rw [h1]
    simp [List.findIdx?_cons]
  have hrev : (pre ++ '{' :: (mid ++ '}' :: post)).reverse =
      post.reverse ++ '}' :: (mid.reverse ++ '{' :: pre.reverse) := by
    simp
  have hj : lastIdxOf '}' (pre ++ '{' :: (mid ++ '}' :: post)) =
      some ((pre ++ '{' :: (mid ++ '}' :: post)).length - 1 - post.length) := by
    unfold lastIdxOf
    rw [hrev, List.findIdx?_append]
    have h1 : post.reverse.findIdx? (fun c => c = '}') = none :=
      List.findIdx?_eq_none_iff.mpr (fun x hx => by
        simp only [decide_eq_false_iff_not]
        exact fun he => hpost (he ▸ (List.mem_reverse.mp hx)))
    rw [h1]
    simp [List.findIdx?_cons]
  have hlen : (pre ++ '{' :: (mid ++ '}' :: post)).length =
      pre.length + mid.length + post.length + 2 := by
    simp [List.length_append]
    omega
  simp only [extractJsonStr, hfence]
  simp only [braceSlice, hi, hj]
  rw [if_pos (by omega)]
  rw [List.drop_left pre ('{' :: (mid ++ '}' :: post))]
  rw [show (pre ++ '{' :: (mid ++ '}' :: post)).length - 1 - post.length - pre.length + 1 =
    mid.length + 2 from by omega]
  rw [show mid.length + 2 = (mid.length + 1) + 1 from rfl, List.take_succ_cons]
  congr 1
  rw [show mid.length + 1 = mid.length + 1 from rfl, List.take_append 1]
  simp

/-- C7 (amended).  Structured-reply extraction: the normalizer parses
the reply directly when it is bare JSON; strips a fenced ```json block
when one is present (content up to the next ```, whitespace-trimmed);
and otherwise, when surrounding prose exists, extracts the substring
from the first opening brace through the LAST closing brace of the text
(the greedy regex `/\{[\s\S]*\}/`), not the first balanced `{...}`
block. -/
theorem extraction_shapes :
    (∀ pre mid post : List Char,
      findSub fencePat (pre ++ '{' :: (mid ++ '}' :: post)) = none →
      '{' ∉ pre → '}' ∉ post →
      extractJsonStr (pre ++ '{' :: (mid ++ '}' :: post)) = '{' :: (mid ++ ['}'])) ∧
    extractJsonStr ("reply: ```json\n\x7b\"ok\":true\x7d\n``` end".data) =
      ("\x7b\"ok\":true\x7d".data) ∧
    parseJson (extractJsonStr ("\x7b\"ok\":true\x7d".data)) =
      some (Json.obj [("ok".data, Json.bool true)]) :=
  ⟨extract_brace_general, by decide, by decide⟩

/-- C7 witness: the brace decomposition applied at a concrete
prose-wrapped reply. -/
theorem extraction_shapes_witness :
    extractJsonStr (("x ".data) ++ '{' :: (("\"ok\":true".data) ++ '}' :: (" y".data))) =
      '{' :: (("\"ok\":true".data) ++ ['}']) :=
  extraction_shapes.1 ("x ".data) ("\"ok\":true".data) (" y".data)
    (by decide) (by decide) (by decide)

/-- C7 counterexample: on prose with two JSON objects the code's greedy
regex extracts from the first `«{»` to the last `«}»`, which differs
from (and, unlike, fails to parse) the first balanced `{...}` substring
that the claim describes. -/
theorem balanced_brace_counterexample :
    firstBalancedBrace ("x\x7b\"a\":1\x7dy\x7b\"b\":2\x7dz".data) =
      some ("\x7b\"a\":1\x7d".data) ∧
    extractJsonStr ("x\x7b\"a\":1\x7dy\x7b\"b\":2\x7dz".data) =
      ("\x7b\"a\":1\x7dy\x7b\"b\":2\x7d".data) ∧
    ("\x7b\"a\":1\x7dy\x7b\"b\":2\x7d".data) ≠ ("\x7b\"a\":1\x7d".data) ∧
    parseJson (extractJsonStr ("x\x7b\"a\":1\x7dy\x7b\"b\":2\x7dz".data)) = none ∧
    (parseJson ("\x7b\"a\":1\x7d".data)).isSome = true := by
  refine ⟨by decide, by decide, by decide, by decide, by decide⟩
